import Mathlib

set_option maxRecDepth 100000

/-!
Shallow embedding of the grid-world MDP solver
(`value_iteration.py` and `bonus_policy_iteration.py`).

Coordinates are integer pairs `(x, y)` (Python ints), rewards and values are
exact rationals, actions are the integers 0 = UP, 1 = DOWN, 2 = LEFT,
3 = RIGHT as in the `ACTIONS` dictionary of the source.  Fallible lookups
(`IndexError` / `KeyError` in Python) are modelled with `Option`.
-/

inductive Tile where
  | White
  | Brown
  | Green
  | Wall
deriving DecidableEq, Repr

/-- The `TILE_REWARD` dictionary: a lookup that fails (`KeyError`) on `Wall`. -/
def tile_reward : Tile → Option ℚ
  | Tile.White => some (-4/100)
  | Tile.Brown => some (-1)
  | Tile.Green => some 1
  | Tile.Wall => none

abbrev Grid := List (List Tile)
abbrev Pos := ℤ × ℤ

/-- Python list indexing `l[i]`: non-negative indices are plain positions,
indices in `[-len l, 0)` wrap around to the end, anything else raises
(`none`). -/
def pyNth {α : Type} (l : List α) (i : ℤ) : Option α :=
  if 0 ≤ i then l[i.toNat]?
  else if 0 ≤ (l.length : ℤ) + i then l[((l.length : ℤ) + i).toNat]?
  else none

/-- The default 6×6 map built by `GridWorld.__init__`. -/
def defaultMap : Grid :=
  [[Tile.Green, Tile.Wall, Tile.Green, Tile.White, Tile.White, Tile.Green],
   [Tile.White, Tile.Brown, Tile.White, Tile.Green, Tile.Wall, Tile.Brown],
   [Tile.White, Tile.White, Tile.Brown, Tile.White, Tile.Green, Tile.White],
   [Tile.White, Tile.White, Tile.White, Tile.Brown, Tile.White, Tile.Green],
   [Tile.White, Tile.Wall, Tile.Wall, Tile.Wall, Tile.Brown, Tile.White],
   [Tile.White, Tile.White, Tile.White, Tile.White, Tile.White, Tile.White]]

def rowsOf (g : Grid) : ℕ := g.length

/-- `len(self.map[0])`, the column count the source uses for bound checks. -/
def colsOf (g : Grid) : ℕ := (g.headD []).length

/-- `self.states`: `[(c, r) for r, row in enumerate(map) for c, tile in
enumerate(row) if tile != "Wall"]`. -/
def statesList (g : Grid) : List Pos :=
  (g.enum.map (fun rr =>
    rr.2.enum.filterMap (fun ct =>
      if ct.2 ≠ Tile.Wall then some ((ct.1 : ℤ), (rr.1 : ℤ)) else none))).flatten

/-- `GridWorld.get_reward`: `self.tile_reward[self.map[y][x]]` with Python
indexing semantics. -/
def get_reward (g : Grid) (pos : Pos) : Option ℚ :=
  match pyNth g pos.2 with
  | none => none
  | some row =>
    match pyNth row pos.1 with
    | none => none
    | some t => tile_reward t

/-- The tile a non-negative in-range coordinate points at. -/
def tileAt (g : Grid) (p : Pos) : Option Tile :=
  (g[p.2.toNat]?).bind (fun row => row[p.1.toNat]?)

/-- The unit displacement dispatch shared by `step` and `is_valid_action`
(an unknown action code falls through every `elif` and moves nothing). -/
def applyAction (a : ℤ) (p : Pos) : Pos :=
  if a = 0 then (p.1, p.2 - 1)
  else if a = 1 then (p.1, p.2 + 1)
  else if a = 2 then (p.1 - 1, p.2)
  else if a = 3 then (p.1 + 1, p.2)
  else p

/-- `GridWorld.is_valid_action`. -/
def is_valid_action (g : Grid) (x y : ℤ) (a : ℤ) : Bool :=
  if (rowsOf g : ℤ) ≤ (applyAction a (x, y)).2 ∨ (applyAction a (x, y)).2 < 0 then
    false
  else if (colsOf g : ℤ) ≤ (applyAction a (x, y)).1 ∨ (applyAction a (x, y)).1 < 0 then
    false
  else if tileAt g (applyAction a (x, y)) = some Tile.Wall then false
  else true

/-- `GridWorld.step`. -/
def step (g : Grid) (pos : Pos) (a : ℤ) : Option (Pos × ℚ) :=
  if is_valid_action g pos.1 pos.2 a = false then
    (get_reward g pos).map (fun r => (pos, r))
  else
    let p := applyAction a pos
    (get_reward g p).map (fun r => (p, r))

/-- `Agent.get_action_probs` (identical in both source files): falls off the
end (`None`) for any action code outside 0..3. -/
def get_action_probs (action : ℤ) : Option (List ℤ × List ℚ) :=
  if action = 0 then some ([0, 2, 3], [4/5, 1/10, 1/10])
  else if action = 1 then some ([1, 2, 3], [4/5, 1/10, 1/10])
  else if action = 2 then some ([2, 0, 1], [4/5, 1/10, 1/10])
  else if action = 3 then some ([3, 0, 1], [4/5, 1/10, 1/10])
  else none

/-- In-bounds predicate for the proper (non-wrapping) index range used by
`is_valid_action`. -/
def inB (g : Grid) (p : Pos) : Prop :=
  0 ≤ p.1 ∧ p.1 < (colsOf g : ℤ) ∧ 0 ≤ p.2 ∧ p.2 < (rowsOf g : ℤ)

instance (g : Grid) (p : Pos) : Decidable (inB g p) := by
  unfold inB; infer_instance

/-- Rectangular grid: every row has the length of row 0. -/
def Rect (g : Grid) : Prop := ∀ row ∈ g, row.length = colsOf g

instance (g : Grid) : Decidable (Rect g) := by
  unfold Rect; infer_instance

/-- The expected action-value loop body shared by `Agent.value_iteration`,
`Agent.evaluate_policy` and `Agent.improve_policy`:
`for a, p in zip(actionl, probs): s_, r = env.step(s, a);
a_value += p * (r + gamma * v[y_][x_])`.
All call sites evaluate it at states where `step` succeeds, so the
unreachable `none` branch contributes nothing. -/
def qValue (g : Grid) (γ : ℚ) (v : Pos → ℚ) (s : Pos) (action : ℤ) : ℚ :=
  let ap := (get_action_probs action).getD ([], [])
  (List.zip ap.1 ap.2).foldl (fun acc x =>
    match step g s x.1 with
    | some sr => acc + x.2 * (sr.2 + γ * v sr.1)
    | none => acc) 0

/-- The argmax scan over the four actions (`max_a_value = -1`, strict `>`
updates): returns the final `max_a_value` and `argmax_action`
(`none` when no action-value ever exceeded the initial `-1`). -/
def processState (g : Grid) (γ : ℚ) (v : Pos → ℚ) (s : Pos) : ℚ × Option ℤ :=
  ([0, 1, 2, 3] : List ℤ).foldl (fun acc action =>
    let q := qValue g γ v s action
    if acc.1 < q then (q, some action) else acc) (-1, none)

/-- The mutable locals of the `while flag:` loop of `Agent.value_iteration`:
the value table `self.v`, the policy, and the Python locals `delta`,
`delta1` (which persists across sweeps) and `flag`. -/
structure SweepSt where
  v : Pos → ℚ
  pol : Pos → Option ℤ
  delta : ℚ
  delta1 : ℚ
  flag : Bool

/-- The body of `for s in all_states:` inside `Agent.value_iteration`:
`vtmp` is the deepcopy snapshot taken at the top of the sweep; successor
values are read from it.  When an action is selected, `policy[s]`,
`self.v[y][x]` and `delta1` take their values from the final update;
then `delta = max(delta, delta1)` and `if delta < theta: flag = False`. -/
def sweepStep (g : Grid) (γ θ : ℚ) (vtmp : Pos → ℚ) (st : SweepSt) (s : Pos) :
    SweepSt :=
  let r := processState g γ vtmp s
  let st' : SweepSt :=
    match r.2 with
    | some a =>
      { st with
        v := fun p => if p = s then r.1 else st.v p
        pol := fun p => if p = s then some a else st.pol p
        delta1 := |vtmp s - r.1| }
    | none => st
  let d := max st'.delta st'.delta1
  { st' with delta := d, flag := if d < θ then false else st'.flag }

/-- One sweep of `Agent.value_iteration`: `delta = 0`,
`v_tmp = copy.deepcopy(self.v)`, then the per-state loop. -/
def sweep (g : Grid) (γ θ : ℚ) (st : SweepSt) : SweepSt :=
  (statesList g).foldl (sweepStep g γ θ st.v) { st with delta := 0 }

/-- `n` sweeps of the `while flag:` loop (the loop body is `sweep`; the
Python loop runs it while `flag` is still true, so its final state is
`viRun n` for the first `n` at which `flag` has become false). -/
def viRun (g : Grid) (γ θ : ℚ) (st : SweepSt) : ℕ → SweepSt
  | 0 => st
  | n + 1 => sweep g γ θ (viRun g γ θ st n)

/-- Modelled from the spec: the sweep the claim describes, an
"asynchronous / Gauss-Seidel-style" update in which expected action-values
read successor values from the partially updated current table `st.v`
instead of the pre-sweep snapshot (which is still used for `delta1`). -/
def gsSweepStep (g : Grid) (γ θ : ℚ) (vtmp : Pos → ℚ) (st : SweepSt) (s : Pos) :
    SweepSt :=
  let r := processState g γ st.v s
  let st' : SweepSt :=
    match r.2 with
    | some a =>
      { st with
        v := fun p => if p = s then r.1 else st.v p
        pol := fun p => if p = s then some a else st.pol p
        delta1 := |vtmp s - r.1| }
    | none => st
  let d := max st'.delta st'.delta1
  { st' with delta := d, flag := if d < θ then false else st'.flag }

/-- Modelled from the spec: a full Gauss-Seidel-style sweep. -/
def gsSweep (g : Grid) (γ θ : ℚ) (st : SweepSt) : SweepSt :=
  (statesList g).foldl (gsSweepStep g γ θ st.v) { st with delta := 0 }

/-- The value a synchronous (snapshot-reading) Bellman sweep assigns at `p`:
a function of the pre-sweep table alone.  States where no action-value
exceeds the `-1` scan initializer keep their old value. -/
def snapshotSweepValue (g : Grid) (γ : ℚ) (vtmp : Pos → ℚ) (p : Pos) : ℚ :=
  if p ∈ statesList g ∧ (processState g γ vtmp p).2.isSome then
    (processState g γ vtmp p).1
  else vtmp p

/-- The largest absolute value change over all states of one sweep. -/
def sweepFullDelta (g : Grid) (γ θ : ℚ) (st : SweepSt) : ℚ :=
  ((statesList g).map (fun s => |st.v s - (sweep g γ θ st).v s|)).foldl max 0

/-- The running `delta` recorded right after the first state of a sweep. -/
def sweepFirstDelta (g : Grid) (γ θ : ℚ) (st : SweepSt) (h : statesList g ≠ []) :
    ℚ :=
  (sweepStep g γ θ st.v { st with delta := 0 } ((statesList g).head h)).delta

/-- The state of `Agent.improve_policy` (`bonus_policy_iteration.py`):
the policy table and the `is_stable` accumulator. -/
structure ImpSt where
  pol : Pos → Option ℤ
  stable : Bool

/-- The body of `for s in all_states:` in `Agent.improve_policy`:
`old_pi = policy[s]`, the argmax scan over actions (writing `policy[s]`
whenever it improves), then `if old_pi != argmax_action: is_stable = False`.
`self.v` is never written here, so action-values are a function of `v`. -/
def improveStep (g : Grid) (γ : ℚ) (v : Pos → ℚ) (st : ImpSt) (s : Pos) :
    ImpSt :=
  let old := st.pol s
  let r := processState g γ v s
  let pol' : Pos → Option ℤ :=
    match r.2 with
    | some a => fun p => if p = s then some a else st.pol p
    | none => st.pol
  { pol := pol', stable := if old ≠ r.2 then false else st.stable }

/-- `Agent.improve_policy`: one pass over all states, starting from
`is_stable = True`. -/
def improve_policy (g : Grid) (γ : ℚ) (v : Pos → ℚ) (pol : Pos → Option ℤ) :
    ImpSt :=
  (statesList g).foldl (improveStep g γ v) ⟨pol, true⟩

/-- The position component of a successful `step`, defaulting to the argument
(the default is never used at a valid state, where `step` succeeds). -/
def stepFst (g : Grid) (p : Pos) (a : ℤ) : Pos :=
  ((step g p a).map Prod.fst).getD p

/-- `gamma` used by both entry points. -/
def gammaVI : ℚ := 99/100

/-- `theta` of `Agent.value_iteration`. -/
def thetaVI : ℚ := 101/100000

/-- A 1×2 grid `[Green, White]` (one row, two columns). -/
def g2 : Grid := [[Tile.Green, Tile.White]]

/-- A 1×1 grid holding a single Brown tile. -/
def gB : Grid := [[Tile.Brown]]

/-- A 1×1 grid holding a single Green tile. -/
def gG : Grid := [[Tile.Green]]

/-- The zero-initialized value table. -/
def vZero : Pos → ℚ := fun _ => 0

/-- A value table that is 100 at the origin and 0 elsewhere. -/
def v100 : Pos → ℚ := fun p => if p = ((0 : ℤ), (0 : ℤ)) then 100 else 0

/-- Loop state at entry: zero values, undecided policy, `flag = True`. -/
def st0 : SweepSt := ⟨vZero, fun _ => none, 0, 0, true⟩

/-- Loop state with `v100` as value table. -/
def stC : SweepSt := ⟨v100, fun _ => none, 0, 0, true⟩

/-- The all-UP policy `bonus_policy_iteration.py` starts from. -/
def polB : Pos → Option ℤ := fun _ => some 0

/-! ## Basic lookup lemmas -/

lemma pyNth_of_nonneg {α : Type} (l : List α) (i : ℤ) (h : 0 ≤ i) :
    pyNth l i = l[i.toNat]? := by
  simp [pyNth, h]

lemma tileAt_isSome (g : Grid) (hrect : Rect g) (p : Pos) (hp : inB g p) :
    ∃ t, tileAt g p = some t := by
  obtain ⟨hx0, hxc, hy0, hyr⟩ := hp
  have hy : p.2.toNat < g.length := by
    simp only [rowsOf] at hyr; omega
  have hrow : g[p.2.toNat]? = some g[p.2.toNat] := List.getElem?_eq_getElem hy
  have hmem : g[p.2.toNat] ∈ g := List.getElem_mem hy
  have hlen : (g[p.2.toNat]).length = colsOf g := hrect _ hmem
  have hx : p.1.toNat < (g[p.2.toNat]).length := by rw [hlen]; omega
  exact ⟨(g[p.2.toNat])[p.1.toNat],
    by simp [tileAt, hrow, List.getElem?_eq_getElem hx]⟩

lemma get_reward_nonneg (g : Grid) (p : Pos) (h1 : 0 ≤ p.1) (h2 : 0 ≤ p.2) :
    get_reward g p = (tileAt g p).bind tile_reward := by
  unfold get_reward tileAt
  rw [pyNth_of_nonneg _ _ h2]
  cases hg : g[p.2.toNat]? with
  | none => simp
  | some row =>
    have hrw : pyNth row p.1 = row[p.1.toNat]? := pyNth_of_nonneg _ _ h1
    simp only [Option.bind_some, hrw]
    cases hr : row[p.1.toNat]? <;> simp [hr]

lemma tile_reward_isSome (t : Tile) (h : t ≠ Tile.Wall) :
    (tile_reward t).isSome := by
  cases t
  · rfl
  · rfl
  · rfl
  · exact absurd rfl h

lemma is_valid_iff (g : Grid) (x y a : ℤ) :
    is_valid_action g x y a = true ↔
      (inB g (applyAction a (x, y)) ∧
        tileAt g (applyAction a (x, y)) ≠ some Tile.Wall) := by
  unfold is_valid_action inB
  by_cases h1 : (rowsOf g : ℤ) ≤ (applyAction a (x, y)).2 ∨ (applyAction a (x, y)).2 < 0
  · rw [if_pos h1]
    simp only [Bool.false_eq_true, false_iff]
    rintro ⟨⟨_, _, _, _⟩, _⟩; omega
  · rw [if_neg h1]
    by_cases h2 : (colsOf g : ℤ) ≤ (applyAction a (x, y)).1 ∨ (applyAction a (x, y)).1 < 0
    · rw [if_pos h2]
      simp only [Bool.false_eq_true, false_iff]
      rintro ⟨⟨_, _, _, _⟩, _⟩; omega
    · rw [if_neg h2]
      by_cases h3 : tileAt g (applyAction a (x, y)) = some Tile.Wall
      · rw [if_pos h3]
        simp only [Bool.false_eq_true, false_iff]
        rintro ⟨_, hne⟩; exact hne h3
      · rw [if_neg h3]
        simp only [true_iff]
        exact ⟨⟨by omega, by omega, by omega, by omega⟩, h3⟩

/-! ## C1: step rejects into the current state, else moves and rewards on
arrival -/

/-- C1: for a state `s` (in bounds, non-Wall tile) of a rectangular grid and
an action in {UP, DOWN, LEFT, RIGHT}: when the candidate coordinate obtained
from the action's unit displacement is out of bounds or a Wall tile, `step`
returns `(s, reward s)`; otherwise it returns the candidate together with the
reward of the tile arrived at.  In both cases the reward lookup succeeds. -/
theorem step_reject_or_move (g : Grid) (hrect : Rect g) (s : Pos)
    (hs : inB g s) (hW : tileAt g s ≠ some Tile.Wall) (a : ℤ)
    (ha : a ∈ ([0, 1, 2, 3] : List ℤ)) :
    (¬(inB g (applyAction a s) ∧ tileAt g (applyAction a s) ≠ some Tile.Wall) →
      step g s a = (get_reward g s).map (fun r => (s, r)) ∧
        (get_reward g s).isSome) ∧
    ((inB g (applyAction a s) ∧ tileAt g (applyAction a s) ≠ some Tile.Wall) →
      step g s a = (get_reward g (applyAction a s)).map
          (fun r => (applyAction a s, r)) ∧
        (get_reward g (applyAction a s)).isSome) := by
  obtain ⟨x, y⟩ := s
  constructor
  · intro hrej
    have hv : is_valid_action g x y a = false := by
      cases hcase : is_valid_action g x y a
      · rfl
      · exact absurd ((is_valid_iff g x y a).mp hcase) hrej
    refine ⟨by simp [step, hv], ?_⟩
    obtain ⟨t, ht⟩ := tileAt_isSome g hrect (x, y) hs
    rw [get_reward_nonneg g (x, y) hs.1 hs.2.2.1, ht]
    exact tile_reward_isSome t (by rintro rfl; exact hW ht)
  · rintro ⟨hin, hwall⟩
    have hv : is_valid_action g x y a = true :=
      (is_valid_iff g x y a).mpr ⟨hin, hwall⟩
    refine ⟨by simp [step, hv], ?_⟩
    obtain ⟨t, ht⟩ := tileAt_isSome g hrect _ hin
    rw [get_reward_nonneg g _ hin.1 hin.2.2.1, ht]
    exact tile_reward_isSome t (by rintro rfl; exact hwall ht)

/-- Witness for C1 at the default map, state (0,0), action RIGHT: the
candidate (1,0) is a Wall, so the move is rejected and the reward is the one
of staying on the Green start tile. -/
theorem step_reject_or_move_witness :
    step defaultMap ((0 : ℤ), (0 : ℤ)) 3 =
      (get_reward defaultMap ((0 : ℤ), (0 : ℤ))).map
        (fun r => (((0 : ℤ), (0 : ℤ)), r)) ∧
      (get_reward defaultMap ((0 : ℤ), (0 : ℤ))).isSome :=
  (step_reject_or_move defaultMap (by decide) ((0 : ℤ), (0 : ℤ)) (by decide)
    (by decide) 3 (by decide)).1 (by decide)

/-! ## C5: the state set is closed under step -/

/-- C5: `step` from a state of the state set never leaves the state set: it
succeeds and the position it returns is in bounds with a non-Wall tile. -/
theorem step_closure (g : Grid) (hrect : Rect g) (s : Pos) (hs : inB g s)
    (hW : tileAt g s ≠ some Tile.Wall) (a : ℤ)
    (ha : a ∈ ([0, 1, 2, 3] : List ℤ)) :
    (step g s a).isSome ∧ inB g (stepFst g s a) ∧
      tileAt g (stepFst g s a) ≠ some Tile.Wall := by
  obtain ⟨x, y⟩ := s
  by_cases hv : is_valid_action g x y a = true
  · obtain ⟨hin, hwall⟩ := (is_valid_iff g x y a).mp hv
    obtain ⟨t, ht⟩ := tileAt_isSome g hrect _ hin
    have hr : get_reward g (applyAction a (x, y)) = tile_reward t := by
      rw [get_reward_nonneg g _ hin.1 hin.2.2.1, ht]; rfl
    obtain ⟨rv, hrv⟩ := Option.isSome_iff_exists.mp
      (tile_reward_isSome t (by rintro rfl; exact hwall ht))
    have hstep : step g (x, y) a = some (applyAction a (x, y), rv) := by
      simp [step, hv, hr, hrv]
    exact ⟨by simp [hstep], by simp [stepFst, hstep, hin],
      by simp [stepFst, hstep, hwall]⟩
  · have hv' : is_valid_action g x y a = false := by
      cases hcase : is_valid_action g x y a
      · rfl
      · exact absurd hcase hv
    obtain ⟨t, ht⟩ := tileAt_isSome g hrect (x, y) hs
    have hr : get_reward g (x, y) = tile_reward t := by
      rw [get_reward_nonneg g (x, y) hs.1 hs.2.2.1, ht]; rfl
    obtain ⟨rv, hrv⟩ := Option.isSome_iff_exists.mp
      (tile_reward_isSome t (by rintro rfl; exact hW ht))
    have hstep : step g (x, y) a = some ((x, y), rv) := by
      simp [step, hv', hr, hrv]
    exact ⟨by simp [hstep], by simp [stepFst, hstep, hs],
      by simp [stepFst, hstep, hW]⟩

/-- Witness for C5 at the default map, state (5,0), action DOWN (a Brown
tile at (5,1), a valid move). -/
theorem step_closure_witness :
    (step defaultMap ((5 : ℤ), (0 : ℤ)) 1).isSome ∧
      inB defaultMap (stepFst defaultMap ((5 : ℤ), (0 : ℤ)) 1) ∧
      tileAt defaultMap (stepFst defaultMap ((5 : ℤ), (0 : ℤ)) 1) ≠
        some Tile.Wall :=
  step_closure defaultMap (by decide) ((5 : ℤ), (0 : ℤ)) (by decide)
    (by decide) 1 (by decide)

/-! ## C6: when the reward lookup fails -/

/-- Counterexample to C6: the claim says `get_reward` fails on negative
coordinates, but Python indexing wraps them around: at `(-1, 0)` the lookup
lands on the last tile of row 0 (Green) and returns its reward. -/
theorem get_reward_negative_coordinate_succeeds :
    get_reward defaultMap ((-1 : ℤ), (0 : ℤ)) = some 1 := by decide

/-- C6 (amended): on a rectangular grid, `get_reward` at an in-bounds
coordinate fails exactly when the tile there is Wall; an index in
`[-len, 0)` is not rejected but wraps to the end of the list (shown here
for both the row index and the column index); only an index beyond the wrap
range fails as out of bounds, again for the row index (`y ≥ rows` or
`y < -rows`) and for the column index (`x ≥ cols` or `x < -cols` with `y`
in proper range) alike. -/
theorem get_reward_failure_spec (g : Grid) (hrect : Rect g) (x y : ℤ) :
    (inB g (x, y) →
      (get_reward g (x, y) = none ↔ tileAt g (x, y) = some Tile.Wall)) ∧
    (-(rowsOf g : ℤ) ≤ y → y < 0 →
      get_reward g (x, y) = get_reward g (x, y + rowsOf g)) ∧
    (0 ≤ y → y < (rowsOf g : ℤ) → -(colsOf g : ℤ) ≤ x → x < 0 →
      get_reward g (x, y) = get_reward g (x + colsOf g, y)) ∧
    ((rowsOf g : ℤ) ≤ y ∨ y < -(rowsOf g : ℤ) → get_reward g (x, y) = none) ∧
    (0 ≤ y → y < (rowsOf g : ℤ) →
      ((colsOf g : ℤ) ≤ x ∨ x < -(colsOf g : ℤ)) →
      get_reward g (x, y) = none) := by
  refine ⟨?_, ?_, ?_, ?_, ?_⟩
  · intro hin
    obtain ⟨t, ht⟩ := tileAt_isSome g hrect (x, y) hin
    rw [get_reward_nonneg g (x, y) hin.1 hin.2.2.1, ht]
    cases t <;> simp [tile_reward]
  · intro hy1 hy2
    have hrs : rowsOf g = g.length := rfl
    have hsc : pyNth g y = pyNth g (y + rowsOf g) := by
      unfold pyNth
      rw [if_neg (by omega), if_pos (by omega), if_pos (by omega)]
      congr 1
      omega
    show (match pyNth g y with
      | none => none
      | some row =>
        match pyNth row x with
        | none => none
        | some t => tile_reward t) = _
    rw [hsc]
    rfl
  · intro hy1 hy2 hx1 hx2
    have hy : y.toNat < g.length := by simp only [rowsOf] at hy2; omega
    have hrow : pyNth g y = some g[y.toNat] := by
      rw [pyNth_of_nonneg _ _ hy1]; exact List.getElem?_eq_getElem hy
    have hlen : (g[y.toNat]).length = colsOf g := hrect _ (List.getElem_mem hy)
    have hsc : pyNth (g[y.toNat]) x = pyNth (g[y.toNat]) (x + colsOf g) := by
      unfold pyNth
      rw [if_neg (by omega), if_pos (by omega), if_pos (by omega)]
      rw [hlen]
      congr 1
      omega
    show (match pyNth g y with
      | none => none
      | some row =>
        match pyNth row x with
        | none => none
        | some t => tile_reward t) =
      (match pyNth g y with
      | none => none
      | some row =>
        match pyNth row (x + (colsOf g : ℤ)) with
        | none => none
        | some t => tile_reward t)
    rw [hrow]
    show (match pyNth (g[y.toNat]) x with
      | none => none
      | some t => tile_reward t) =
      (match pyNth (g[y.toNat]) (x + (colsOf g : ℤ)) with
      | none => none
      | some t => tile_reward t)
    rw [hsc]
  · intro hy
    have hsc : pyNth g y = none := by
      unfold pyNth
      rcases hy with hy | hy
      · rw [if_pos (by omega)]
        exact List.getElem?_eq_none (by simp only [rowsOf] at hy; omega)
      · rw [if_neg (by simp only [rowsOf] at hy; omega),
          if_neg (by simp only [rowsOf] at hy; omega)]
    show (match pyNth g y with
      | none => none
      | some row =>
        match pyNth row x with
        | none => none
        | some t => tile_reward t) = _
    rw [hsc]
  · intro hy1 hy2 hx
    have hy : y.toNat < g.length := by simp only [rowsOf] at hy2; omega
    have hrow : pyNth g y = some g[y.toNat] := by
      rw [pyNth_of_nonneg _ _ hy1]; exact List.getElem?_eq_getElem hy
    have hlen : (g[y.toNat]).length = colsOf g := hrect _ (List.getElem_mem hy)
    have hsc : pyNth (g[y.toNat]) x = none := by
      unfold pyNth
      rcases hx with hx | hx
      · rw [if_pos (by omega)]
        exact List.getElem?_eq_none (by rw [hlen]; omega)
      · rw [if_neg (by omega), if_neg (by rw [hlen]; omega)]
    show (match pyNth g y with
      | none => none
      | some row =>
        match pyNth row x with
        | none => none
        | some t => tile_reward t) = none
    rw [hrow]
    show (match pyNth (g[y.toNat]) x with
      | none => none
      | some t => tile_reward t) = none
    rw [hsc]

/-- Witness for the amended C6 on the default map: `(-1, 0)` wraps its
column index to 5, the reward of the Green tile at `(5, 0)`. -/
theorem get_reward_failure_spec_witness :
    get_reward defaultMap ((-1 : ℤ), (0 : ℤ)) =
      get_reward defaultMap ((-1 : ℤ) + colsOf defaultMap, (0 : ℤ)) :=
  (get_reward_failure_spec defaultMap (by decide) (-1) 0).2.2.1
    (by decide) (by decide) (by decide) (by decide)

/-! ## C4: the slip model of get_action_probs -/

/-- The direction opposite to an action code. -/
def oppositeAction (a : ℤ) : ℤ :=
  if a = 0 then 1 else if a = 1 then 0 else if a = 2 then 3
  else if a = 3 then 2 else a

/-- The two actions perpendicular to an action's axis. -/
def perpActions (a : ℤ) : List ℤ :=
  if a = 0 ∨ a = 1 then [2, 3] else [0, 1]

/-- The outcome-action list of `get_action_probs`. -/
def outcomeList (a : ℤ) : List ℤ :=
  ((get_action_probs a).getD ([], [])).1

/-- C4: for each action 0..3, `get_action_probs` returns exactly 3 outcomes
with probabilities `[0.8, 0.1, 0.1]` summing to 1: first the intended action,
then the two actions perpendicular to its axis; the opposite direction never
appears. -/
theorem get_action_probs_slip (a : ℤ) (ha : a ∈ ([0, 1, 2, 3] : List ℤ)) :
    get_action_probs a = some (outcomeList a, [4/5, 1/10, 1/10]) ∧
    (outcomeList a).length = 3 ∧
    ([4/5, 1/10, 1/10] : List ℚ).sum = 1 ∧
    (outcomeList a).head? = some a ∧
    (outcomeList a).tail = perpActions a ∧
    oppositeAction a ∉ outcomeList a := by
  fin_cases ha <;> exact of_decide_eq_true (by with_unfolding_all rfl)

/-- Witness for C4 at the intended action UP. -/
theorem get_action_probs_slip_witness :
    get_action_probs 0 = some (outcomeList 0, [4/5, 1/10, 1/10]) ∧
    (outcomeList 0).length = 3 ∧
    ([4/5, 1/10, 1/10] : List ℚ).sum = 1 ∧
    (outcomeList 0).head? = some 0 ∧
    (outcomeList 0).tail = perpActions 0 ∧
    oppositeAction 0 ∉ outcomeList 0 :=
  get_action_probs_slip 0 (by decide)

/-! ## C7: totality of the action-outcome table -/

/-- C7: `get_action_probs` succeeds exactly on the four defined action codes
and fails (`None` in the source) on every other integer. -/
theorem get_action_probs_total (a : ℤ) :
    (get_action_probs a).isSome ↔ (0 ≤ a ∧ a ≤ 3) := by
  unfold get_action_probs
  split_ifs with h0 h1 h2 h3 <;> simp <;> omega

/-! ## Structural lemmas about the value-iteration sweep -/

lemma sweepStep_v (g : Grid) (γ θ : ℚ) (vtmp : Pos → ℚ) (st : SweepSt)
    (s p : Pos) :
    (sweepStep g γ θ vtmp st s).v p =
      if p = s ∧ (processState g γ vtmp s).2.isSome then
        (processState g γ vtmp s).1
      else st.v p := by
  cases h : (processState g γ vtmp s).2 with
  | none => simp [sweepStep, h]
  | some a =>
    by_cases hp : p = s <;> simp [sweepStep, h, hp]

lemma sweepStep_pol (g : Grid) (γ θ : ℚ) (vtmp : Pos → ℚ) (st : SweepSt)
    (s p : Pos) :
    (sweepStep g γ θ vtmp st s).pol p =
      if p = s ∧ (processState g γ vtmp s).2.isSome then
        (processState g γ vtmp s).2
      else st.pol p := by
  cases h : (processState g γ vtmp s).2 with
  | none => simp [sweepStep, h]
  | some a =>
    by_cases hp : p = s <;> simp [sweepStep, h, hp]

lemma sweepStep_delta_ge (g : Grid) (γ θ : ℚ) (vtmp : Pos → ℚ) (st : SweepSt)
    (s : Pos) :
    st.delta ≤ (sweepStep g γ θ vtmp st s).delta := by
  cases h : (processState g γ vtmp s).2 <;>
    simp [sweepStep, h, le_max_left]

lemma sweepStep_flag (g : Grid) (γ θ : ℚ) (vtmp : Pos → ℚ) (st : SweepSt)
    (s : Pos) :
    (sweepStep g γ θ vtmp st s).flag =
      if (sweepStep g γ θ vtmp st s).delta < θ then false else st.flag := by
  cases h : (processState g γ vtmp s).2 <;> simp [sweepStep, h]

lemma foldl_sweep_v (g : Grid) (γ θ : ℚ) (vtmp : Pos → ℚ) (p : Pos)
    (l : List Pos) :
    ∀ st : SweepSt,
      ((l.foldl (sweepStep g γ θ vtmp) st).v p) =
        if p ∈ l ∧ (processState g γ vtmp p).2.isSome then
          (processState g γ vtmp p).1
        else st.v p := by
  induction l with
  | nil => intro st; simp
  | cons s t ih =>
    intro st
    rw [List.foldl_cons, ih, sweepStep_v]
    by_cases hpt : p ∈ t ∧ (processState g γ vtmp p).2.isSome
    · simp [hpt, List.mem_cons, hpt.1]
    · rw [if_neg hpt]
      by_cases hps : p = s ∧ (processState g γ vtmp s).2.isSome
      · obtain ⟨rfl, hsome⟩ := hps
        simp [hsome]
      · rw [if_neg hps]
        rw [if_neg ?goal]
        case goal =>
          rintro ⟨hmem, hsome⟩
          rcases List.mem_cons.mp hmem with rfl | hmem'
          · exact hps ⟨rfl, hsome⟩
          · exact hpt ⟨hmem', hsome⟩

lemma foldl_sweep_pol (g : Grid) (γ θ : ℚ) (vtmp : Pos → ℚ) (p : Pos)
    (l : List Pos) :
    ∀ st : SweepSt,
      ((l.foldl (sweepStep g γ θ vtmp) st).pol p) =
        if p ∈ l ∧ (processState g γ vtmp p).2.isSome then
          (processState g γ vtmp p).2
        else st.pol p := by
  induction l with
  | nil => intro st; simp
  | cons s t ih =>
    intro st
    rw [List.foldl_cons, ih, sweepStep_pol]
    by_cases hpt : p ∈ t ∧ (processState g γ vtmp p).2.isSome
    · simp [hpt, List.mem_cons, hpt.1]
    · rw [if_neg hpt]
      by_cases hps : p = s ∧ (processState g γ vtmp s).2.isSome
      · obtain ⟨rfl, hsome⟩ := hps
        simp [hsome]
      · rw [if_neg hps]
        rw [if_neg ?goal]
        case goal =>
          rintro ⟨hmem, hsome⟩
          rcases List.mem_cons.mp hmem with rfl | hmem'
          · exact hps ⟨rfl, hsome⟩
          · exact hpt ⟨hmem', hsome⟩

lemma foldl_sweep_flag (g : Grid) (γ θ : ℚ) (vtmp : Pos → ℚ) :
    ∀ (l : List Pos) (hne : l ≠ []) (st : SweepSt),
      ((l.foldl (sweepStep g γ θ vtmp) st).flag = false ↔
        st.flag = false ∨
          (sweepStep g γ θ vtmp st (l.head hne)).delta < θ) := by
  intro l
  induction l with
  | nil => intro hne; exact absurd rfl hne
  | cons s t ih =>
    intro hne st
    rw [List.foldl_cons]
    cases t with
    | nil =>
      simp only [List.foldl_nil, List.head_cons]
      rw [sweepStep_flag]
      by_cases hd : (sweepStep g γ θ vtmp st s).delta < θ
      · simp [hd]
      · simp [hd]
    | cons s' t' =>
      rw [ih (List.cons_ne_nil s' t')]
      simp only [List.head_cons]
      by_cases hd : (sweepStep g γ θ vtmp st s).delta < θ
      · have hflag : (sweepStep g γ θ vtmp st s).flag = false := by
          rw [sweepStep_flag, if_pos hd]
        simp [hflag, hd]
      · have hflag : (sweepStep g γ θ vtmp st s).flag = st.flag := by
          rw [sweepStep_flag, if_neg hd]
        have hd2 : ¬((sweepStep g γ θ vtmp (sweepStep g γ θ vtmp st s)
            s').delta < θ) := by
          intro hlt
          exact hd (lt_of_le_of_lt
            (sweepStep_delta_ge g γ θ vtmp (sweepStep g γ θ vtmp st s) _) hlt)
        simp [hflag, hd, hd2]

/-! ## C2: the sweep is synchronous, not Gauss-Seidel -/

/-- C2 (amended): the value table produced by one sweep of
`Agent.value_iteration` is a function of the pre-sweep snapshot alone:
every expected action-value reads successor values from `v_tmp`, so the
sweep is a synchronous Bellman update (with the `-1` scan-initializer
no-selection quirk), not an asynchronous / Gauss-Seidel-style one. -/
theorem sweep_reads_only_snapshot (g : Grid) (γ θ : ℚ) (st : SweepSt)
    (p : Pos) :
    (sweep g γ θ st).v p = snapshotSweepValue g γ st.v p := by
  unfold sweep snapshotSweepValue
  exact foldl_sweep_v g γ θ st.v p (statesList g) { st with delta := 0 }

/-- Counterexample to C2 as stated: on the 1×2 grid `[Green, White]` with
zero initial values, the source's sweep gives the White state value
`0.792` (computed from the snapshot), while the Gauss-Seidel-style sweep
the claim describes would give `1.584` (reading the freshly written Green
value); the two disagree. -/
theorem sweep_not_gauss_seidel :
    (sweep g2 gammaVI thetaVI st0).v (1, 0) = 99/125 ∧
    (gsSweep g2 gammaVI thetaVI st0).v (1, 0) = 198/125 ∧
    (sweep g2 gammaVI thetaVI st0).v (1, 0) ≠
      (gsSweep g2 gammaVI thetaVI st0).v (1, 0) :=
  of_decide_eq_true (by with_unfolding_all rfl)

/-! ## C3: what actually stops the value-iteration loop -/

lemma g2_states_ne : statesList g2 ≠ [] := by decide

/-- C3 (amended): the sweep clears `flag` (stopping the loop after the
current sweep) exactly when the running `delta` recorded right after the
FIRST state of the enumeration is below `theta` (or `flag` was already
cleared); because `delta` is a running maximum, deltas of later states can
never stop the loop on their own. -/
theorem value_iteration_stop_condition (g : Grid) (γ θ : ℚ) (st : SweepSt)
    (hne : statesList g ≠ []) :
    ((sweep g γ θ st).flag = false ↔
      st.flag = false ∨ sweepFirstDelta g γ θ st hne < θ) := by
  unfold sweep sweepFirstDelta
  exact foldl_sweep_flag g γ θ st.v (statesList g) hne { st with delta := 0 }

/-- Witness for the amended C3 on the 1×2 grid with zero initial values. -/
theorem value_iteration_stop_condition_witness :
    ((sweep g2 gammaVI thetaVI st0).flag = false ↔
      st0.flag = false ∨
        sweepFirstDelta g2 gammaVI thetaVI st0 g2_states_ne < thetaVI) :=
  value_iteration_stop_condition g2 gammaVI thetaVI st0 g2_states_ne

/-- Counterexample to C3 as stated: on the 1×2 grid `[Green, White]` with
the value table `(100, 0)`, the first state's value does not change
(delta 0 < theta, so `flag` is cleared), while the second state moves by
`79.992`; the full maximum change of the sweep is far above theta, yet the
loop stops. -/
theorem sweep_stops_despite_large_full_delta :
    (sweep g2 gammaVI thetaVI stC).flag = false ∧
    ¬(sweepFullDelta g2 gammaVI thetaVI stC < thetaVI) :=
  of_decide_eq_true (by with_unfolding_all rfl)

/-! ## Structural lemmas about improve_policy -/

lemma improveStep_pol (g : Grid) (γ : ℚ) (v : Pos → ℚ) (st : ImpSt)
    (s p : Pos) :
    (improveStep g γ v st s).pol p =
      if p = s ∧ (processState g γ v s).2.isSome then
        (processState g γ v s).2
      else st.pol p := by
  cases h : (processState g γ v s).2 with
  | none => simp [improveStep, h]
  | some a =>
    by_cases hp : p = s <;> simp [improveStep, h, hp]

lemma improveStep_stable (g : Grid) (γ : ℚ) (v : Pos → ℚ) (st : ImpSt)
    (s : Pos) :
    (improveStep g γ v st s).stable =
      if st.pol s ≠ (processState g γ v s).2 then false else st.stable := by
  simp [improveStep]

lemma foldl_improve_pol (g : Grid) (γ : ℚ) (v : Pos → ℚ) (p : Pos)
    (l : List Pos) :
    ∀ st : ImpSt,
      ((l.foldl (improveStep g γ v) st).pol p) =
        if p ∈ l ∧ (processState g γ v p).2.isSome then
          (processState g γ v p).2
        else st.pol p := by
  induction l with
  | nil => intro st; simp
  | cons s t ih =>
    intro st
    rw [List.foldl_cons, ih, improveStep_pol]
    by_cases hpt : p ∈ t ∧ (processState g γ v p).2.isSome
    · simp [hpt, List.mem_cons, hpt.1]
    · rw [if_neg hpt]
      by_cases hps : p = s ∧ (processState g γ v s).2.isSome
      · obtain ⟨rfl, hsome⟩ := hps
        simp [hsome]
      · rw [if_neg hps]
        rw [if_neg ?goal]
        case goal =>
          rintro ⟨hmem, hsome⟩
          rcases List.mem_cons.mp hmem with rfl | hmem'
          · exact hps ⟨rfl, hsome⟩
          · exact hpt ⟨hmem', hsome⟩

lemma foldl_improve_stable_false (g : Grid) (γ : ℚ) (v : Pos → ℚ)
    (l : List Pos) :
    ∀ st : ImpSt, st.stable = false →
      ((l.foldl (improveStep g γ v) st).stable = false) := by
  induction l with
  | nil => intro st h; simpa using h
  | cons s t ih =>
    intro st h
    rw [List.foldl_cons]
    apply ih
    rw [improveStep_stable]
    by_cases hc : st.pol s ≠ (processState g γ v s).2 <;> simp [hc, h]

lemma foldl_improve_stable_fixed (g : Grid) (γ : ℚ) (v : Pos → ℚ)
    (l : List Pos) :
    ∀ st : ImpSt, (∀ s ∈ l, st.pol s = (processState g γ v s).2) →
      ((l.foldl (improveStep g γ v) st).stable = st.stable) := by
  induction l with
  | nil => intro st _; simp
  | cons s t ih =>
    intro st hfix
    rw [List.foldl_cons]
    have hs := hfix s (List.mem_cons_self s t)
    have hstable : (improveStep g γ v st s).stable = st.stable := by
      rw [improveStep_stable, if_neg (by simp [hs])]
    rw [ih _ ?hrest, hstable]
    case hrest =>
      intro s' hs'
      rw [improveStep_pol]
      by_cases hps : s' = s ∧ (processState g γ v s).2.isSome
      · obtain ⟨rfl, hsome⟩ := hps
        rw [if_pos ⟨rfl, hsome⟩]
      · rw [if_neg hps]
        exact hfix s' (List.mem_cons_of_mem s hs')

lemma foldl_improve_unstable (g : Grid) (γ : ℚ) (v : Pos → ℚ) (s : Pos)
    (hnone : (processState g γ v s).2 = none) (l : List Pos) :
    ∀ st : ImpSt, s ∈ l → st.pol s ≠ none →
      ((l.foldl (improveStep g γ v) st).stable = false) := by
  induction l with
  | nil => intro st h; exact absurd h (List.not_mem_nil s)
  | cons s' t ih =>
    intro st hmem hpol
    rw [List.foldl_cons]
    by_cases hss : s = s'
    · subst hss
      apply foldl_improve_stable_false
      rw [improveStep_stable, if_pos]
      rw [hnone]
      exact hpol
    · have hpol' : (improveStep g γ v st s').pol s ≠ none := by
        rw [improveStep_pol, if_neg (by rintro ⟨rfl, _⟩; exact hss rfl)]
        exact hpol
      rcases List.mem_cons.mp hmem with rfl | hmem'
      · exact absurd rfl hss
      · exact ih _ hmem' hpol'

lemma processState_none (g : Grid) (γ : ℚ) (v : Pos → ℚ) (s : Pos)
    (hq : ∀ a ∈ ([0, 1, 2, 3] : List ℤ), qValue g γ v s a ≤ -1) :
    processState g γ v s = (-1, none) := by
  have h0 := not_lt.mpr (hq 0 (by simp))
  have h1 := not_lt.mpr (hq 1 (by simp))
  have h2 := not_lt.mpr (hq 2 (by simp))
  have h3 := not_lt.mpr (hq 3 (by simp))
  unfold processState
  simp [List.foldl_cons, List.foldl_nil, h0, h1, h2, h3]

/-! ## C8: idempotence of improve_policy -/

/-- Counterexample to C8 as stated: on a 1×1 Brown grid with zero values,
every action-value is exactly -1, so the strict `>` scan against the `-1`
initializer selects no action; `argmax_action` stays `None`, differs from
the stored policy entry both times, and the second consecutive
`improve_policy` still returns `is_stable = False`. -/
theorem improve_policy_not_idempotent :
    (improve_policy gB gammaVI vZero
      (improve_policy gB gammaVI vZero polB).pol).stable = false :=
  of_decide_eq_true (by with_unfolding_all rfl)

/-- C8 (amended): calling `improve_policy` twice in a row with no
intervening evaluation is idempotent — the second call returns
`is_stable = True` — provided every state selects some action in the scan
(its best expected action-value exceeds the `-1` initializer), which makes
the first call store exactly the argmax the unchanged value table
determines. -/
theorem improve_policy_idempotent (g : Grid) (γ : ℚ) (v : Pos → ℚ)
    (pol : Pos → Option ℤ)
    (hsel : ∀ s ∈ statesList g, (processState g γ v s).2.isSome) :
    (improve_policy g γ v (improve_policy g γ v pol).pol).stable = true := by
  have h1 : ∀ s ∈ statesList g,
      (improve_policy g γ v pol).pol s = (processState g γ v s).2 := by
    intro s hs
    show (((statesList g).foldl (improveStep g γ v) ⟨pol, true⟩).pol) s = _
    rw [foldl_improve_pol, if_pos ⟨hs, hsel s hs⟩]
  show (((statesList g).foldl (improveStep g γ v)
      ⟨(improve_policy g γ v pol).pol, true⟩).stable) = true
  exact foldl_improve_stable_fixed g γ v (statesList g) _ h1

/-- Witness for the amended C8: on the 1×1 Green grid every state selects
an action, so the second of two consecutive `improve_policy` calls is
stable. -/
theorem improve_policy_idempotent_witness :
    (improve_policy gG gammaVI vZero
      (improve_policy gG gammaVI vZero polB).pol).stable = true :=
  improve_policy_idempotent gG gammaVI vZero polB
    (of_decide_eq_true (by with_unfolding_all rfl))

/-! ## C10: states whose four action-values stay at or below -1 -/

/-- C10: when every expected action-value of a state is ≤ -1 in a sweep,
the strict `>` scan against the `-1` initializer selects nothing: the
value-iteration sweep leaves that state's value-table and policy entries
unchanged, and `improve_policy` keeps `argmax_action = None`, which differs
from the previously assigned action, so it reports `is_stable = False`. -/
theorem unselected_state_unchanged (g : Grid) (γ θ : ℚ) (st : SweepSt)
    (s : Pos) (hs : s ∈ statesList g)
    (hq : ∀ a ∈ ([0, 1, 2, 3] : List ℤ), qValue g γ st.v s a ≤ -1)
    (pol : Pos → Option ℤ) (a₀ : ℤ) (hpol : pol s = some a₀) :
    (sweep g γ θ st).v s = st.v s ∧
    (sweep g γ θ st).pol s = st.pol s ∧
    (improve_policy g γ st.v pol).stable = false := by
  have hnone : (processState g γ st.v s).2 = none := by
    rw [processState_none g γ st.v s hq]
  refine ⟨?_, ?_, ?_⟩
  · show ((statesList g).foldl (sweepStep g γ θ st.v)
      { st with delta := 0 }).v s = st.v s
    rw [foldl_sweep_v, if_neg (by rw [hnone]; rintro ⟨_, h⟩; simp at h)]
  · show ((statesList g).foldl (sweepStep g γ θ st.v)
      { st with delta := 0 }).pol s = st.pol s
    rw [foldl_sweep_pol, if_neg (by rw [hnone]; rintro ⟨_, h⟩; simp at h)]
  · exact foldl_improve_unstable g γ st.v s hnone (statesList g) ⟨pol, true⟩
      hs (by show pol s ≠ none; rw [hpol]; simp)

/-- Witness for C10 on the 1×1 Brown grid with zero values: all four
action-values equal -1. -/
theorem unselected_state_unchanged_witness :
    (sweep gB gammaVI thetaVI st0).v (0, 0) = st0.v (0, 0) ∧
    (sweep gB gammaVI thetaVI st0).pol (0, 0) = st0.pol (0, 0) ∧
    (improve_policy gB gammaVI st0.v polB).stable = false :=
  unselected_state_unchanged gB gammaVI thetaVI st0 (0, 0) (by decide)
    (of_decide_eq_true (by with_unfolding_all rfl)) polB 0 rfl

/-! ## The 1×1 Green grid run of value iteration (C9) -/

lemma statesList_gG : statesList gG = [((0 : ℤ), (0 : ℤ))] := by decide

lemma step_gG (a : ℤ) (ha : a ∈ ([0, 1, 2, 3] : List ℤ)) :
    step gG ((0 : ℤ), (0 : ℤ)) a = some (((0 : ℤ), (0 : ℤ)), 1) := by
  fin_cases ha <;> with_unfolding_all rfl

lemma qValue_gG (v : Pos → ℚ) (a : ℤ) (ha : a ∈ ([0, 1, 2, 3] : List ℤ)) :
    qValue gG gammaVI v ((0 : ℤ), (0 : ℤ)) a =
      1 + gammaVI * v ((0 : ℤ), (0 : ℤ)) := by
  have h0 := step_gG 0 (by decide)
  have h1 := step_gG 1 (by decide)
  have h2 := step_gG 2 (by decide)
  have h3 := step_gG 3 (by decide)
  fin_cases ha <;>
    simp [qValue, get_action_probs, List.foldl_cons, List.foldl_nil,
      h0, h1, h2, h3, -Prod.mk_zero_zero] <;>
    ring

lemma processState_gG (v : Pos → ℚ) (h : 0 ≤ v ((0 : ℤ), (0 : ℤ))) :
    processState gG gammaVI v ((0 : ℤ), (0 : ℤ)) =
      (1 + gammaVI * v ((0 : ℤ), (0 : ℤ)), some 0) := by
  have hq0 := qValue_gG v 0 (by decide)
  have hq1 := qValue_gG v 1 (by decide)
  have hq2 := qValue_gG v 2 (by decide)
  have hq3 := qValue_gG v 3 (by decide)
  have hgt : (-1 : ℚ) < 1 + gammaVI * v ((0 : ℤ), (0 : ℤ)) := by
    have hmul : 0 ≤ gammaVI * v ((0 : ℤ), (0 : ℤ)) :=
      mul_nonneg (by norm_num [gammaVI]) h
    linarith
  unfold processState
  simp [List.foldl_cons, List.foldl_nil, hq0, hq1, hq2, hq3, hgt,
    -Prod.mk_zero_zero]

lemma sweep_gG (st : SweepSt) (h : 0 ≤ st.v ((0 : ℤ), (0 : ℤ))) :
    (sweep gG gammaVI thetaVI st).v ((0 : ℤ), (0 : ℤ)) =
      1 + gammaVI * st.v ((0 : ℤ), (0 : ℤ)) ∧
    (sweep gG gammaVI thetaVI st).flag =
      (if max 0 |st.v ((0 : ℤ), (0 : ℤ)) -
          (1 + gammaVI * st.v ((0 : ℤ), (0 : ℤ)))| < thetaVI then false
        else st.flag) := by
  unfold sweep
  rw [statesList_gG]
  simp only [List.foldl_cons, List.foldl_nil]
  have hp := processState_gG st.v h
  constructor
  · rw [sweepStep_v, hp]
    simp
  · simp only [sweepStep, hp]

lemma gammaVI_nonneg : (0 : ℚ) ≤ gammaVI := by norm_num [gammaVI]

lemma gammaVI_le_one : gammaVI ≤ 1 := by norm_num [gammaVI]

lemma viRun_gG (n : ℕ) :
    (viRun gG gammaVI thetaVI st0 n).v ((0 : ℤ), (0 : ℤ)) =
      100 - 100 * gammaVI ^ n ∧
    ((viRun gG gammaVI thetaVI st0 n).flag = true ↔
      (n = 0 ∨ thetaVI ≤ gammaVI ^ (n - 1))) := by
  induction n with
  | zero =>
    constructor
    · show (0 : ℚ) = 100 - 100 * gammaVI ^ 0
      norm_num
    · simp [viRun, st0]
  | succ n ih =>
    obtain ⟨hv, hf⟩ := ih
    have hnn : (0 : ℚ) ≤ gammaVI ^ n := pow_nonneg gammaVI_nonneg n
    have hle1 : gammaVI ^ n ≤ 1 := pow_le_one₀ gammaVI_nonneg gammaVI_le_one
    have h0 : 0 ≤ (viRun gG gammaVI thetaVI st0 n).v ((0 : ℤ), (0 : ℤ)) := by
      rw [hv]; linarith
    have hsw := sweep_gG (viRun gG gammaVI thetaVI st0 n) h0
    have hstep : viRun gG gammaVI thetaVI st0 (n + 1) =
        sweep gG gammaVI thetaVI (viRun gG gammaVI thetaVI st0 n) := rfl
    constructor
    · rw [hstep, hsw.1, hv, pow_succ]
      simp only [gammaVI]
      ring
    · rw [hstep, hsw.2, hv]
      have habs : |(100 - 100 * gammaVI ^ n) -
          (1 + gammaVI * (100 - 100 * gammaVI ^ n))| = gammaVI ^ n := by
        have heq : (100 - 100 * gammaVI ^ n) -
            (1 + gammaVI * (100 - 100 * gammaVI ^ n)) = -(gammaVI ^ n) := by
          simp only [gammaVI]
          ring
        rw [heq, abs_neg, abs_of_nonneg hnn]
      rw [habs, max_eq_right hnn]
      have hsub : n + 1 - 1 = n := by omega
      by_cases hc : gammaVI ^ n < thetaVI
      · rw [if_pos hc]
        simp [hsub, not_le.mpr hc]
      · rw [if_neg hc]
        have hflagn : (viRun gG gammaVI thetaVI st0 n).flag = true := by
          rw [hf]
          cases n with
          | zero => exact Or.inl rfl
          | succ m =>
            refine Or.inr ?_
            have hmono : gammaVI ^ (m + 1) ≤ gammaVI ^ m := by
              rw [pow_succ]
              exact mul_le_of_le_one_right (pow_nonneg gammaVI_nonneg m)
                gammaVI_le_one
            have := le_trans (not_lt.mp hc) hmono
            simpa using this
        rw [hflagn]
        simp [hsub, not_lt.mp hc]

/-! ## C9: value iteration on the 1×1 Green grid -/

lemma theta_le_pow686 : thetaVI ≤ gammaVI ^ 686 :=
  of_decide_eq_true (by with_unfolding_all rfl)

lemma pow687_lt_theta : gammaVI ^ 687 < thetaVI :=
  of_decide_eq_true (by with_unfolding_all rfl)

lemma pow688_large : (101 / 10000000 : ℚ) < gammaVI ^ 688 :=
  of_decide_eq_true (by with_unfolding_all rfl)

/-- Counterexample to C9 as stated: on the 1×1 Green grid the loop does
terminate — `flag` is still set after 687 sweeps and first cleared after
sweep 688 — but the final value `100·(1 − 0.99^688)` misses the closed form
100 by about `0.099`, which is NOT within the tolerance θ = 0.00101. -/
theorem vi_green_not_within_theta :
    (viRun gG gammaVI thetaVI st0 687).flag = true ∧
    (viRun gG gammaVI thetaVI st0 688).flag = false ∧
    ¬(|100 - (viRun gG gammaVI thetaVI st0 688).v ((0 : ℤ), (0 : ℤ))| ≤
        thetaVI) := by
  have h687 := (viRun_gG 687).2
  have h688 := (viRun_gG 688).2
  have hv := (viRun_gG 688).1
  refine ⟨?_, ?_, ?_⟩
  · exact h687.mpr (Or.inr (by simpa using theta_le_pow686))
  · cases hflag : (viRun gG gammaVI thetaVI st0 688).flag
    · rfl
    · exfalso
      rcases h688.mp hflag with h | h
      · exact absurd h (by norm_num)
      · have : gammaVI ^ (688 - 1) < thetaVI := by simpa using pow687_lt_theta
        exact absurd h (not_le.mpr this)
  · rw [hv]
    have habs : |(100 : ℚ) - (100 - 100 * gammaVI ^ 688)| =
        100 * gammaVI ^ 688 := by
      rw [show (100 : ℚ) - (100 - 100 * gammaVI ^ 688) =
        100 * gammaVI ^ 688 by ring]
      exact abs_of_nonneg
        (mul_nonneg (by norm_num) (pow_nonneg gammaVI_nonneg 688))
    rw [habs]
    intro hle
    have : (100 : ℚ) * (101 / 10000000) < 100 * gammaVI ^ 688 :=
      (mul_lt_mul_left (by norm_num)).mpr pow688_large
    rw [show (100 : ℚ) * (101 / 10000000) = thetaVI by norm_num [thetaVI]]
      at this
    exact absurd hle (not_le.mpr this)

/-- C9 (amended): on the 1×1 Green grid with γ = 0.99 and zero-initialized
values, value iteration terminates after exactly 688 sweeps (`flag` is
still set after 687 sweeps, cleared after 688), the final value is exactly
`100·(1 − 0.99^688)`, and it is within `θ/(1−γ) = 0.101` of the closed form
`reward/(1−γ) = 100` (though not within θ itself, see the counterexample). -/
theorem vi_green_convergence :
    (viRun gG gammaVI thetaVI st0 687).flag = true ∧
    (viRun gG gammaVI thetaVI st0 688).flag = false ∧
    (viRun gG gammaVI thetaVI st0 688).v ((0 : ℤ), (0 : ℤ)) =
      100 - 100 * gammaVI ^ 688 ∧
    |100 - (viRun gG gammaVI thetaVI st0 688).v ((0 : ℤ), (0 : ℤ))| <
      100 * thetaVI := by
  have h687 := (viRun_gG 687).2
  have h688 := (viRun_gG 688).2
  have hv := (viRun_gG 688).1
  refine ⟨?_, ?_, hv, ?_⟩
  · exact h687.mpr (Or.inr (by simpa using theta_le_pow686))
  · cases hflag : (viRun gG gammaVI thetaVI st0 688).flag
    · rfl
    · exfalso
      rcases h688.mp hflag with h | h
      · exact absurd h (by norm_num)
      · have : gammaVI ^ (688 - 1) < thetaVI := by simpa using pow687_lt_theta
        exact absurd h (not_le.mpr this)
  · rw [hv]
    have habs : |(100 : ℚ) - (100 - 100 * gammaVI ^ 688)| =
        100 * gammaVI ^ 688 := by
      rw [show (100 : ℚ) - (100 - 100 * gammaVI ^ 688) =
        100 * gammaVI ^ 688 by ring]
      exact abs_of_nonneg
        (mul_nonneg (by norm_num) (pow_nonneg gammaVI_nonneg 688))
    rw [habs]
    have hlt : gammaVI ^ 688 < thetaVI := by
      have : gammaVI ^ 688 ≤ gammaVI ^ 687 := by
        rw [pow_succ]
        exact mul_le_of_le_one_right (pow_nonneg gammaVI_nonneg 687)
          gammaVI_le_one
      exact lt_of_le_of_lt this pow687_lt_theta
    exact (mul_lt_mul_left (by norm_num)).mpr hlt
